import Mathlib

set_option maxRecDepth 16384

/-
Verification development for the scraping-image repository.

The embedding below translates the source files into Lean:
  * src/utils/scraper.ts   (URL validation, image-URL cleanup, relay-chain
    acquisition, metadata extraction, per-URL orchestration)
  * the generative-language summarizer service
  * the image-archive builder of the application component

Browser/platform primitives that the source calls (the WHATWG URL
constructor, DOMParser/regex candidate discovery, fetch, the JS Set) are
modelled explicitly: the URL constructor as a simplified WHATWG parser,
and the network / DOM-discovery environment as explicit parameters of the
embedded functions, so every embedded function is a total computable
Lean function.
-/

namespace Scrape

/-! ### JavaScript string primitives, modelled on lists of characters -/

/-- Character used for a single quote (code point 39). -/
def squote : Char := Char.ofNat 39

/-- Character used for a double quote (code point 34). -/
def dquote : Char := Char.ofNat 34

/-- Model of JavaScript `String.prototype.startsWith`. -/
def jsStartsWith (s pat : String) : Bool :=
  pat.data.isPrefixOf s.data

/-- `hasSubstr pat l` is true iff `pat` occurs as a contiguous substring of `l`;
this models JavaScript `String.prototype.includes`. -/
def hasSubstr (pat : List Char) : List Char → Bool
  | [] => pat.isEmpty
  | c :: rest => pat.isPrefixOf (c :: rest) || hasSubstr pat rest

/-- Model of JavaScript `String.prototype.includes`. -/
def jsIncludes (s pat : String) : Bool :=
  hasSubstr pat.data s.data

/-- Model of the JavaScript `||` default idiom on possibly-absent strings:
`x || d` yields `d` when `x` is `undefined`/`null` or the empty string. -/
def jsOr (o : Option String) (d : String) : String :=
  match o with
  | some s => if s = "" then d else s
  | none => d

/-- ASCII whitespace used by the model of the regex `\s` class (the JS class
additionally matches some Unicode space characters; none of the properties
proved depend on those). -/
def isWs (c : Char) : Bool :=
  c == ' ' || c == Char.ofNat 9 || c == Char.ofNat 10 || c == Char.ofNat 13
    || c == Char.ofNat 11 || c == Char.ofNat 12

/-- Model of JavaScript `String.prototype.trim`. -/
def jsTrim (s : String) : String :=
  String.mk (((s.data.dropWhile isWs).reverse.dropWhile isWs).reverse)

/-- `collapseWsAux l inRun` rewrites every maximal run of whitespace to a
single space; `inRun` records whether the previous character was whitespace.
Models `replace(/\s+/g, ' ')`. -/
def collapseWsAux : List Char → Bool → List Char
  | [], _ => []
  | c :: rest, inRun =>
    if isWs c then
      if inRun then collapseWsAux rest true
      else ' ' :: collapseWsAux rest true
    else c :: collapseWsAux rest false

/-- Model of `replace(/\s+/g, ' ')`: collapse each whitespace run to one space. -/
def collapseWs (s : String) : String :=
  String.mk (collapseWsAux s.data false)

/-- Model of JavaScript `substring(0, n)`: the first `n` characters. -/
def truncateChars (n : Nat) (s : String) : String :=
  String.mk (s.data.take n)

/-! ### Model of the WHATWG URL constructor

The source calls `new URL(input)` and `new URL(input, base)`.  The model
below follows the documented behavior of the WHATWG basic URL parser,
simplified in ways that are not load-bearing for the proved properties:
no percent-encoding, no IDNA/host-character validation, no case
normalization of the scheme, and no dot-segment removal during relative
resolution.  Parsing fails (the constructor throws) exactly when the model
returns `none`. -/

/-- ASCII letter test. -/
def isAsciiAlpha (c : Char) : Bool :=
  decide (('a' ≤ c ∧ c ≤ 'z') ∨ ('A' ≤ c ∧ c ≤ 'Z'))

/-- ASCII digit test. -/
def isAsciiDigit (c : Char) : Bool :=
  decide ('0' ≤ c ∧ c ≤ '9')

/-- Characters allowed in a URL scheme after the first (ASCII alphanumeric
and `+`, `-`, `.`). -/
def isSchemeChar (c : Char) : Bool :=
  isAsciiAlpha c || isAsciiDigit c || c == '+' || c == '-' || c == '.'

/-- Scan an initial run of scheme characters terminated by `:`; returns the
scheme characters and the remainder after the colon. -/
def takeScheme : List Char → Option (List Char × List Char)
  | [] => none
  | c :: rest =>
    if c == ':' then some ([], rest)
    else if isSchemeChar c then (takeScheme rest).map (fun p => (c :: p.1, p.2))
    else none

/-- Split off a URL scheme: the first character must be an ASCII letter and a
colon must terminate the scheme run. -/
def splitScheme (l : List Char) : Option (List Char × List Char) :=
  match l with
  | [] => none
  | c :: _ => if isAsciiAlpha c then takeScheme l else none

/-- The WHATWG special schemes. -/
def specialScheme (s : String) : Bool :=
  s == "http" || s == "https" || s == "ws" || s == "wss" || s == "ftp" || s == "file"

/-- Parsed absolute URL: scheme, whether an authority (`//`) component is
present, the host, and the remaining path/query/fragment text. -/
structure Url where
  scheme : String
  sep : Bool
  host : String
  pathQuery : String
deriving DecidableEq

/-- Host characters stop at `/`, `?` and `#`. -/
def notDelim (c : Char) : Bool :=
  !(c == '/' || c == '?' || c == '#')

/-- Slash-like characters skipped before the authority of a special URL. -/
def isSlashy (c : Char) : Bool :=
  c == '/' || c == '\\'

/-- Authority parsing for special schemes: skip slash-like characters, read a
mandatory non-empty host, and default the path to `/`. -/
def parseAuthoritySpecial (scheme : String) (l : List Char) : Option Url :=
  if ((l.dropWhile isSlashy).takeWhile notDelim).isEmpty then none
  else some { scheme := scheme, sep := true,
              host := String.mk ((l.dropWhile isSlashy).takeWhile notDelim),
              pathQuery := if ((l.dropWhile isSlashy).dropWhile notDelim).isEmpty then "/"
                           else String.mk ((l.dropWhile isSlashy).dropWhile notDelim) }

/-- Authority parsing for non-special schemes: the host may be empty. -/
def parseAuthorityLoose (scheme : String) (l : List Char) : Url :=
  { scheme := scheme, sep := true, host := String.mk (l.takeWhile notDelim),
    pathQuery := String.mk (l.dropWhile notDelim) }

/-- Model of `new URL(s)` (no base): parse an absolute URL, or `none` when the
constructor would throw. -/
def urlParse (s : String) : Option Url :=
  match splitScheme s.data with
  | none => none
  | some (sch, rest) =>
    let scheme := String.mk sch
    if specialScheme scheme then parseAuthoritySpecial scheme rest
    else
      match rest with
      | '/' :: '/' :: rest2 => some (parseAuthorityLoose scheme rest2)
      | _ => some { scheme := scheme, sep := false, host := "", pathQuery := String.mk rest }

/-- Serialization of a parsed URL (the `href` property). -/
def href (u : Url) : String :=
  u.scheme ++ ":" ++ (if u.sep then "//" ++ u.host else "") ++ u.pathQuery

/-- The directory prefix of a path: everything up to and including the last
`/` (empty when the path has no slash). -/
def dirOf (p : String) : String :=
  String.mk ((p.data.reverse.dropWhile (fun c => !(c == '/'))).reverse)

/-- Model of `new URL(input, base)`: absolute inputs parse on their own;
otherwise the input is resolved against the parsed base (protocol-relative
`//…`, root-relative `/…`, empty, or path-relative). -/
def urlResolve (input base : String) : Option Url :=
  match urlParse input with
  | some u => some u
  | none =>
    match urlParse base with
    | none => none
    | some b =>
      if b.sep = false then none
      else
        match input.data with
        | '/' :: '/' :: rest2 =>
          if specialScheme b.scheme then parseAuthoritySpecial b.scheme rest2
          else some (parseAuthorityLoose b.scheme rest2)
        | '/' :: _ => some { scheme := b.scheme, sep := true, host := b.host, pathQuery := input }
        | [] => some b
        | _ => some { scheme := b.scheme, sep := true, host := b.host,
                      pathQuery := dirOf b.pathQuery ++ input }

/-! ### Embedding of src/types.ts -/

/-- `ScrapedData` (types.ts:1-8); the per-URL listing result.  Optional
fields model the optional TypeScript members. -/
structure ScrapedData where
  url : String
  images : List String
  text : String
  title : String
  price : Option String
  error : Option String
deriving DecidableEq

/-! ### Embedding of src/utils/scraper.ts -/

/-- `isValidUrl` (scraper.ts:16-23): `new URL(string)` succeeds or the catch
branch returns false.  Pure; no network access. -/
def isValidUrl (s : String) : Bool :=
  (urlParse s).isSome

/-- Remove every backslash: `url.replace(/\\/g, '')` (scraper.ts:32). -/
def stripBackslashes (s : String) : String :=
  String.mk (s.data.filter (fun c => !(c == '\\')))

/-- Drop one leading quote character, if present. -/
def dropLeadingQuote : List Char → List Char
  | [] => []
  | c :: rest => if c == squote || c == dquote then rest else c :: rest

/-- `cleanUrl.replace(/^['"]|['"]$/g, '')` (scraper.ts:34): remove one
wrapping quote at each end. -/
def stripWrapQuotes (s : String) : String :=
  String.mk ((dropLeadingQuote ((dropLeadingQuote s.data).reverse)).reverse)

/-- The map stage of `cleanImages` (scraper.ts:27-40): protocol-relative
candidates are returned as `https:` + candidate without further processing;
all other candidates are backslash-stripped, unquoted, and resolved against
the base URL; a candidate whose resolution throws becomes `none` and is
dropped by the subsequent null filter (scraper.ts:41). -/
def normalizeCandidate (baseUrl url : String) : Option String :=
  if jsStartsWith url "//" then some ("https:" ++ url)
  else (urlResolve (stripWrapQuotes (stripBackslashes url)) baseUrl).map href

/-- The fixed denylist test of `cleanImages` (scraper.ts:45). -/
def isJunk (url : String) : Bool :=
  jsIncludes url ".svg" || jsIncludes url "tracker" || jsIncludes url "analytics"
    || jsIncludes url "facebook" || jsIncludes url "google" || jsIncludes url "whatsapp"

/-- The filter stage of `cleanImages` (scraper.ts:42-57): require an `http`
prefix, drop denylisted URLs, unconditionally keep vendor-allowlisted URLs,
and otherwise drop icon/logo URLs that do not mention `property`. -/
def keepUrl (url : String) : Bool :=
  if jsStartsWith url "http" = false then false
  else if isJunk url then false
  else if jsIncludes url "images.prop24.com" || jsIncludes url "property24" then true
  else if (jsIncludes url "icon" || jsIncludes url "logo") && !(jsIncludes url "property") then false
  else true

/-- `cleanImages` (scraper.ts:25-58): normalize each candidate, drop failed
resolutions, then filter. -/
def cleanImages (images : List String) (baseUrl : String) : List String :=
  (images.filterMap (normalizeCandidate baseUrl)).filter keepUrl

/-- Outcome of one relay attempt as observed by `scrapeViaProxies`: either
the awaited fetch (or body read) threw, carrying the error message, or a
response arrived with its `ok` flag and body text. -/
inductive RelayOutcome
  | err (msg : String)
  | resp (ok : Bool) (body : String)
deriving DecidableEq

/-- The relay loop of `scrapeViaProxies` (scraper.ts:79-95), with the mutable
`html` and `fetchError` locals passed explicitly.  An HTTP-successful
response always overwrites `html`; the loop breaks when the body is non-empty
and longer than 500 characters; a thrown attempt records the error. -/
def relayLoop : List RelayOutcome → String → Option String → String × Option String
  | [], html, ferr => (html, ferr)
  | o :: rest, html, ferr =>
    match o with
    | .err m => relayLoop rest html (some m)
    | .resp ok body =>
      if ok then
        if body ≠ "" ∧ 500 < body.length then (body, ferr)
        else relayLoop rest body ferr
      else relayLoop rest html ferr

/-- The error message thrown by `scrapeViaProxies` (scraper.ts:98), with the
`fetchError?.message || 'Blocked'` default. -/
def failMsg (ferr : Option String) : String :=
  "Failed to fetch content. Sites like Property24 often block cloud proxies. Please run the local server (node server.cjs) for the best experience. Last error: "
    ++ jsOr ferr "Blocked"

/-- The DOM observations that `extractTextFromHtml` (scraper.ts:150-163)
makes on the parsed document: the text of the first `title` element, the
text of the first price element, and `doc.body.textContent` after the
script/style/nav/footer/header/noscript/iframe subtrees are removed.  Each
is `none` when the element (or its text) is absent.  The DOM parse itself is
an external browser primitive, so it enters the model as an environment
function from the HTML string to these observations. -/
structure DomExtract where
  title : Option String
  priceText : Option String
  rawBody : Option String
deriving DecidableEq

/-- The metadata triple returned by `extractTextFromHtml`. -/
structure PageMeta where
  title : String
  text : String
  price : Option String
deriving DecidableEq

/-- `extractTextFromHtml` (scraper.ts:150-163): default title `"Untitled"`,
trimmed price (empty string when no price element is found), and the body
text with whitespace runs collapsed to one space, trimmed, and truncated to
the first 10000 characters. -/
def extractTextFromHtml (dom : String → DomExtract) (html : String) : PageMeta :=
  { title := jsOr (dom html).title "Untitled",
    text := match (dom html).rawBody with
      | none => ""
      | some b => truncateChars 10000 (jsTrim (collapseWs b)),
    price := match (dom html).priceText with
      | none => some ""
      | some t => some (jsTrim t) }

/-- Insertion-order deduplication with an accumulator of already-seen
elements; models the JS `Set` that `scrapeViaProxies` fills (first insertion
wins, iteration in insertion order). -/
def insertionDedupAux : List String → List String → List String
  | [], _ => []
  | x :: xs, seen =>
    if x ∈ seen then insertionDedupAux xs seen
    else x :: insertionDedupAux xs (x :: seen)

/-- Insertion-order deduplication (the JS `Set` / `Array.from` pair of
scraper.ts:103 and 143). -/
def insertionDedup (l : List String) : List String :=
  insertionDedupAux l []

/-- The successful result assembled by `scrapeViaProxies` (scraper.ts:101-147)
from the accepted HTML: the candidate URLs discovered by the three regex/DOM
passes (the environment function `cands`, in discovery order, duplicates
included) are deduplicated by the `Set`, cleaned against the page URL, and
combined with the extracted metadata. -/
def buildResult (cands : String → List String) (dom : String → DomExtract)
    (url html : String) : ScrapedData :=
  { url := url, images := cleanImages (insertionDedup (cands html)) url,
    title := (extractTextFromHtml dom html).title,
    text := (extractTextFromHtml dom html).text,
    price := (extractTextFromHtml dom html).price, error := none }

/-- `scrapeViaProxies` (scraper.ts:73-148): run the relay loop over the
sequence of relay outcomes; throw (`Except.error`) when the retained HTML is
empty, otherwise build the scraped result.  The `usedProxy` local of the
source is never read after being assigned and is omitted. -/
def scrapeViaProxies (cands : String → List String) (dom : String → DomExtract)
    (outs : List RelayOutcome) (url : String) : Except String ScrapedData :=
  if (relayLoop outs "" none).1 = "" then Except.error (failMsg (relayLoop outs "" none).2)
  else Except.ok (buildResult cands dom url (relayLoop outs "" none).1)

/-- JSON payload of a successful local-extraction-service response
(scraper.ts:173): optional fields model absent JSON members. -/
structure LocalData where
  images : List String
  title : Option String
  text : Option String
  price : Option String
deriving DecidableEq

/-- `scrapeUrl` (scraper.ts:165-198).  `localResp` is `some` exactly when the
local-server fetch succeeded with an OK response and parseable JSON; that
path returns the service data (images cleaned, title/text defaulted) and
bypasses the heuristic extractor.  Otherwise the relay chain runs and a
thrown acquisition failure is converted into an error-carrying result. -/
def scrapeUrl (cands : String → List String) (dom : String → DomExtract)
    (localResp : Option LocalData) (outs : List RelayOutcome) (url : String) : ScrapedData :=
  match localResp with
  | some d =>
    { url := url, images := cleanImages d.images url,
      title := jsOr d.title "Extracted Property", text := jsOr d.text "",
      price := d.price, error := none }
  | none =>
    match scrapeViaProxies cands dom outs url with
    | .ok r => r
    | .error m =>
      { url := url, images := [], text := "", title := "Error", price := none, error := some m }

/-! ### Embedding of the summarizer service (services/gemini.ts) -/

/-- Outcome of the awaited generative-language call: the whole `try` body
(client construction aside) either throws with some error (auth, network),
or yields a response whose `text` member may be absent or empty. -/
inductive GenOutcome
  | failure (msg : String)
  | success (text : Option String)
deriving DecidableEq

/-- The fixed user-facing failure message of the summarizer catch branch. -/
def summaryFailureMessage : String :=
  "Failed to generate summary. Please check your API key or try again."

/-- The fixed placeholder returned when the model response is empty. -/
def emptySummaryPlaceholder : String :=
  "No summary generated."

/-- `summarizePropertyListing`: a missing API credential makes
`getAiClient` throw inside the `try`, landing in the same catch branch as a
failed call; a successful call returns `response.text || placeholder`.  The
listing text only feeds the prompt and does not affect which branch runs. -/
def summarizePropertyListing (apiKey : Option String) (outcome : GenOutcome)
    (_text : String) : String :=
  match apiKey with
  | none => summaryFailureMessage
  | some _ =>
    match outcome with
    | .failure _ => summaryFailureMessage
    | .success t => jsOr t emptySummaryPlaceholder

/-! ### Embedding of the archive builder (`handleDownloadImages` in the app
component) -/

/-- Outcome of one relayed image fetch: the bytes of the blob (abstracted to
a string) or a thrown failure. -/
inductive FetchOutcome
  | ok (blob : String)
  | fail
deriving DecidableEq

/-- Extension inference: `ext = 'jpg'`, overridden by `.png`, then by
`.webp` (the later assignment wins when both substrings occur). -/
def extFor (imgUrl : String) : String :=
  let e1 := if jsIncludes imgUrl ".png" then "png" else "jpg"
  if jsIncludes imgUrl ".webp" then "webp" else e1

/-- Archive entry name for the image at 0-based position `i` of the
listing's images: `image_(i+1).(ext)`. -/
def imageFileName (i : Nat) (imgUrl : String) : String :=
  "image_" ++ toString (i + 1) ++ "." ++ extFor imgUrl

/-- The fan-out of per-image fetches: each successfully fetched image is
added to the archive under its original-position name; a failed fetch is
logged and skipped. -/
def fetchImages (fetch : String → FetchOutcome) (images : List String) :
    List (String × String) :=
  images.enum.filterMap (fun p =>
    match fetch p.2 with
    | .ok blob => some (imageFileName p.1 p.2, blob)
    | .fail => none)

/-- Keep ASCII alphanumerics, replace every other character with `_`
(`replace(/[^a-z0-9]/gi, '_')`). -/
def sanitizeChar (c : Char) : Char :=
  if isAsciiAlpha c || isAsciiDigit c then c else '_'

/-- The archive file name: sanitized 20-character title prefix plus
`_images.zip`. -/
def zipFileName (title : String) : String :=
  String.mk ((truncateChars 20 title).data.map sanitizeChar) ++ "_images.zip"

/-- `handleDownloadImages`: an empty image list returns early (no archive,
no save); otherwise all fetches are attempted, the assembled entry list and
archive name are produced, and the save action always runs. -/
def handleDownloadImages (fetch : String → FetchOutcome) (d : ScrapedData) :
    Option (List (String × String) × String) :=
  if d.images.length = 0 then none
  else some (fetchImages fetch d.images, zipFileName d.title)

/-! ### Analysis definitions for the relay chain

Independent characterizations of what the relay loop computes, used to
state the acquisition claims without restating the loop itself. -/

/-- A relay outcome accepted by the loop's break condition: an
HTTP-successful response whose body is non-empty and longer than 500
characters. -/
def accepted : RelayOutcome → Bool
  | .err _ => false
  | .resp ok body => decide (ok = true ∧ body ≠ "" ∧ 500 < body.length)

/-- The response body carried by an outcome (empty for a thrown attempt). -/
def bodyOf : RelayOutcome → String
  | .err _ => ""
  | .resp _ body => body

/-- Body of the first accepted outcome, if any. -/
def firstAcceptedBody : List RelayOutcome → Option String
  | [] => none
  | o :: rest => if accepted o = true then some (bodyOf o) else firstAcceptedBody rest

/-- Body of the last HTTP-successful response of the list, starting from a
given retained value. -/
def lastOkBodyFrom (h : String) : List RelayOutcome → String
  | [] => h
  | .resp true b :: rest => lastOkBodyFrom b rest
  | _ :: rest => lastOkBodyFrom h rest

/-- Body of the last HTTP-successful response (empty when none succeeded). -/
def lastOkBody (outs : List RelayOutcome) : String :=
  lastOkBodyFrom "" outs

/-- Message of the last thrown relay attempt, starting from a given value. -/
def lastErrFrom (e : Option String) : List RelayOutcome → Option String
  | [] => e
  | .err m :: rest => lastErrFrom (some m) rest
  | _ :: rest => lastErrFrom e rest

/-- Message of the last thrown relay attempt, if any. -/
def lastErr (outs : List RelayOutcome) : Option String :=
  lastErrFrom none outs

/-- The HTML retained when the loop finishes: the first accepted body, or
else the body of the last HTTP-successful (but unaccepted) response. -/
def finalHtml (outs : List RelayOutcome) : String :=
  match firstAcceptedBody outs with
  | some b => b
  | none => lastOkBody outs

/-! ### Well-formedness of parsed URLs -/

/-- A well-formed scheme: non-empty, leading ASCII letter, scheme characters
throughout. -/
def schemeOK (s : String) : Bool :=
  match s.data with
  | [] => false
  | c :: rest => isAsciiAlpha c && rest.all isSchemeChar

/-- Invariant of every `Url` produced by `urlParse`/`urlResolve`; sufficient
for its serialization to re-parse. -/
def UrlOK (u : Url) : Prop :=
  schemeOK u.scheme = true
  ∧ (u.sep = true → u.host.data.all notDelim = true)
  ∧ (u.sep = true → specialScheme u.scheme = true →
       u.host.data ≠ [] ∧ ∀ c, u.host.data.head? = some c → isSlashy c = false)
  ∧ (u.sep = false → specialScheme u.scheme = false)

/-! ### Concrete environments used in witnesses and counterexamples -/

/-- A discovery environment finding no image candidates. -/
def noCands : String → List String := fun _ => []

/-- A DOM environment observing nothing. -/
def noDom : String → DomExtract := fun _ => { title := none, priceText := none, rawBody := none }

/-- A body of 501 characters: accepted by the relay loop's length check. -/
def big501 : String := String.mk (List.replicate 501 'a')

/-- A local-service text payload of 10001 characters. -/
def longText : String := String.mk (List.replicate 10001 'x')

/-- One relay outcome whose body is accepted. -/
def outsAccept : List RelayOutcome := [RelayOutcome.resp true big501]

/-- Relay outcomes with an HTTP-successful but too-short body followed by a
thrown attempt: no outcome is accepted. -/
def outsShort : List RelayOutcome := [RelayOutcome.resp true "shortbody", RelayOutcome.err "boom"]

/-- A discovery environment returning two distinct raw candidates that clean
to the same URL (the second is the first wrapped in quotes). -/
def dupCands : String → List String := fun _ => ["https://h/a.jpg", "\"https://h/a.jpg\""]

/-- An image fetcher that succeeds only on the second image of
`gapListing`. -/
def gapFetch : String → FetchOutcome :=
  fun u => if u = "https://h/b.png" then FetchOutcome.ok "B" else FetchOutcome.fail

/-- A listing with two images, the first of which fails to download. -/
def gapListing : ScrapedData :=
  { url := "https://x", images := ["https://h/a.jpg", "https://h/b.png"],
    text := "", title := "My House", price := none, error := none }

/-! ### Substring lemmas -/

theorem hasSubstr_mono {p q : List Char} (hpq : p.isPrefixOf q = true) :
    ∀ l, hasSubstr q l = true → hasSubstr p l = true := by
  intro l
  induction l with
  | nil =>
    intro h
    simp only [hasSubstr, List.isEmpty_iff] at h ⊢
    subst h
    have := List.isPrefixOf_iff_prefix.mp hpq
    simpa using List.prefix_nil.mp this
  | cons c t ih =>
    intro h
    simp only [hasSubstr, Bool.or_eq_true] at h ⊢
    cases h with
    | inl h1 =>
      exact Or.inl (List.isPrefixOf_iff_prefix.mpr
        ((List.isPrefixOf_iff_prefix.mp hpq).trans (List.isPrefixOf_iff_prefix.mp h1)))
    | inr h2 => exact Or.inr (ih h2)

theorem jsIncludes_property_of_property24 (s : String)
    (h : jsIncludes s "property24" = true) : jsIncludes s "property" = true :=
  hasSubstr_mono (by decide) s.data h

/-! ### Filter-stage lemmas -/

theorem keepUrl_starts (u : String) (hk : keepUrl u = true) : jsStartsWith u "http" = true := by
  unfold keepUrl at hk
  split at hk
  · exact absurd hk (by simp)
  · next hns =>
    cases hsw : jsStartsWith u "http" with
    | true => rfl
    | false => exact absurd hsw hns

theorem keepUrl_not_junk (u : String) (hk : keepUrl u = true) : isJunk u = false := by
  unfold keepUrl at hk
  split at hk
  · exact absurd hk (by simp)
  · split at hk
    · exact absurd hk (by simp)
    · next hj => simpa using hj

theorem keepUrl_of_allowlist (u : String) (hs : jsStartsWith u "http" = true)
    (hj : isJunk u = false) (hp : jsIncludes u "images.prop24.com" = true) :
    keepUrl u = true := by
  unfold keepUrl
  rw [if_neg (by simp [hs]), if_neg (by simp [hj]), if_pos (by simp [hp])]

theorem keepUrl_logo_drop (u : String) (hk : keepUrl u = true)
    (hl : jsIncludes u "logo" = true) (hp : jsIncludes u "property" = false)
    (hi : jsIncludes u "images.prop24.com" = false) : False := by
  have h24 : jsIncludes u "property24" = false := by
    cases h : jsIncludes u "property24" with
    | false => rfl
    | true => exact absurd (jsIncludes_property_of_property24 u h) (by simp [hp])
  unfold keepUrl at hk
  split at hk
  · simp at hk
  · split at hk
    · simp at hk
    · split at hk
      · next hcond => simp [hi, h24] at hcond
      · split at hk
        · simp at hk
        · next hcond2 => exact hcond2 (by simp [hl, hp])

theorem isJunk_false_parts (u : String) (h : isJunk u = false) :
    jsIncludes u ".svg" = false ∧ jsIncludes u "tracker" = false
      ∧ jsIncludes u "analytics" = false ∧ jsIncludes u "facebook" = false
      ∧ jsIncludes u "google" = false ∧ jsIncludes u "whatsapp" = false := by
  unfold isJunk at h
  simp only [Bool.or_eq_false_iff] at h
  exact ⟨h.1.1.1.1.1, h.1.1.1.1.2, h.1.1.1.2, h.1.1.2, h.1.2, h.2⟩

/-! ### Claims C7 and C8 -/

/-- C7 (amended): every URL surviving the Normalizer/Filter contains none of
the denylist substrings `.svg` (with the leading dot — bare `svg` is not
filtered), `tracker`, `analytics`, `facebook`, `google`, `whatsapp`; in
particular a candidate containing `facebook` is excluded regardless of all
other heuristics, including the vendor allowlist. -/
theorem C7_denylist_amended : ∀ (cands : List String) (base url : String),
    url ∈ cleanImages cands base →
    jsIncludes url ".svg" = false ∧ jsIncludes url "tracker" = false
      ∧ jsIncludes url "analytics" = false ∧ jsIncludes url "facebook" = false
      ∧ jsIncludes url "google" = false ∧ jsIncludes url "whatsapp" = false := by
  intro cands base url hmem
  exact isJunk_false_parts url (keepUrl_not_junk url (List.mem_filter.mp hmem).2)

/-- C7 witness: a concrete clean URL is in the output and the amended
theorem yields all six non-containment facts for it. -/
theorem C7_denylist_witness :
    jsIncludes "https://img.example.com/a.jpg" ".svg" = false
      ∧ jsIncludes "https://img.example.com/a.jpg" "tracker" = false
      ∧ jsIncludes "https://img.example.com/a.jpg" "analytics" = false
      ∧ jsIncludes "https://img.example.com/a.jpg" "facebook" = false
      ∧ jsIncludes "https://img.example.com/a.jpg" "google" = false
      ∧ jsIncludes "https://img.example.com/a.jpg" "whatsapp" = false :=
  C7_denylist_amended ["https://img.example.com/a.jpg"] "https://site.example/"
    "https://img.example.com/a.jpg" (by decide)

/-- C7 counterexample: a candidate URL containing the substring `svg` (but
not `.svg`) is kept by the filter, so the claimed denylist entry `svg` does
not match the code, which tests for `.svg`. -/
theorem C7_denylist_counterexample :
    cleanImages ["https://h/svgfoo/a.jpg"] "https://site.example/" = ["https://h/svgfoo/a.jpg"]
      ∧ jsIncludes "https://h/svgfoo/a.jpg" "svg" = true := by
  exact ⟨by decide, by decide⟩

/-- C8 (confirmed): a normalized candidate that reaches the filter with an
`http` prefix and no denylist hit and that matches the vendor allowlist
substring `images.prop24.com` is kept even when it also contains `icon`;
and a candidate containing `logo` but neither `property` nor the vendor
allowlist substring is never in the output (`property24` contains
`property`, so the second allowlist substring cannot apply either). -/
theorem C8_allowlist_filter : ∀ (cands : List String) (base url : String),
    (url ∈ cands.filterMap (normalizeCandidate base) →
      jsStartsWith url "http" = true → isJunk url = false →
      jsIncludes url "images.prop24.com" = true → jsIncludes url "icon" = true →
      url ∈ cleanImages cands base)
    ∧ (url ∈ cleanImages cands base → jsIncludes url "logo" = true →
        jsIncludes url "property" = false → jsIncludes url "images.prop24.com" = false → False) := by
  intro cands base url
  constructor
  · intro hm hs hj hp _hicon
    exact List.mem_filter.mpr ⟨hm, keepUrl_of_allowlist url hs hj hp⟩
  · intro hmem hl hp hi
    exact keepUrl_logo_drop url (List.mem_filter.mp hmem).2 hl hp hi

/-- C8 witness: a vendor-allowlisted URL containing `icon` is concretely in
the output. -/
theorem C8_allowlist_filter_witness :
    "https://images.prop24.com/icon/a.jpg"
      ∈ cleanImages ["https://images.prop24.com/icon/a.jpg"] "https://site.example/" :=
  (C8_allowlist_filter ["https://images.prop24.com/icon/a.jpg"] "https://site.example/"
      "https://images.prop24.com/icon/a.jpg").1
    (by decide) (by decide) (by decide) (by decide) (by decide)

/-! ### Scheme-splitting lemmas -/

theorem isSchemeChar_beq_colon (c : Char) (h : isSchemeChar c = true) : (c == ':') = false := by
  cases hb : (c == ':') with
  | false => rfl
  | true =>
    exfalso
    have hc : c = ':' := eq_of_beq hb
    subst hc
    revert h
    decide

theorem takeScheme_eq : ∀ (l sch rest : List Char), takeScheme l = some (sch, rest) →
    l = sch ++ ':' :: rest ∧ sch.all isSchemeChar = true := by
  intro l
  induction l with
  | nil => intro sch rest h; simp [takeScheme] at h
  | cons c tl ih =>
    intro sch rest h
    unfold takeScheme at h
    by_cases hc : (c == ':') = true
    · have hc' : c = ':' := eq_of_beq hc
      rw [if_pos hc] at h
      obtain ⟨h1, h2⟩ := Prod.mk.injEq .. ▸ Option.some.injEq .. ▸ h
      subst hc'
      simp at h
      obtain ⟨h1, h2⟩ := h
      subst h1; subst h2
      simp
    · rw [if_neg hc] at h
      by_cases hs : isSchemeChar c = true
      · rw [if_pos hs, Option.map_eq_some'] at h
        obtain ⟨⟨s', r'⟩, h1, h2⟩ := h
        simp only [Prod.mk.injEq] at h2
        obtain ⟨hsch, hrest⟩ := h2
        obtain ⟨htl, hall⟩ := ih s' r' h1
        subst hsch; subst hrest; subst htl
        simp [hs, hall]
      · rw [if_neg hs] at h
        simp at h

theorem takeScheme_append : ∀ (sch rest : List Char), sch.all isSchemeChar = true →
    takeScheme (sch ++ ':' :: rest) = some (sch, rest) := by
  intro sch
  induction sch with
  | nil =>
    intro rest _
    simp [takeScheme]
  | cons c tl ih =>
    intro rest hall
    simp only [List.all_cons, Bool.and_eq_true] at hall
    obtain ⟨hc, htl⟩ := hall
    simp only [List.cons_append]
    unfold takeScheme
    rw [if_neg (by simp [isSchemeChar_beq_colon c hc]), if_pos hc, ih rest htl]
    rfl

theorem splitScheme_eq (l sch rest : List Char) (h : splitScheme l = some (sch, rest)) :
    l = sch ++ ':' :: rest ∧ schemeOK (String.mk sch) = true := by
  match l, h with
  | c :: tl, h =>
    simp only [splitScheme] at h
    by_cases ha : isAsciiAlpha c = true
    · rw [if_pos ha] at h
      obtain ⟨hl, hall⟩ := takeScheme_eq (c :: tl) sch rest h
      refine ⟨hl, ?_⟩
      match sch, hl, hall with
      | [], hl, _ =>
        exfalso
        have : c = ':' := by simpa using congrArg (fun x => x.head?) hl
        subst this
        revert ha
        decide
      | s0 :: stl, hl, hall =>
        have hc : c = s0 := by simpa using congrArg (fun x => x.head?) hl
        subst hc
        simp only [List.all_cons, Bool.and_eq_true] at hall
        simp [schemeOK, ha, hall.2]
    · rw [if_neg ha] at h
      simp at h

theorem splitScheme_append (sch rest : List Char) (h : schemeOK (String.mk sch) = true) :
    splitScheme (sch ++ ':' :: rest) = some (sch, rest) := by
  match sch, h with
  | c :: tl, h =>
    simp only [schemeOK, Bool.and_eq_true] at h
    obtain ⟨ha, hall⟩ := h
    simp only [List.cons_append, splitScheme]
    rw [if_pos ha]
    have : (c :: tl).all isSchemeChar = true := by
      simp [List.all_cons, ha, hall, isSchemeChar]
    exact takeScheme_append (c :: tl) rest this

/-! ### URL well-formedness: parsing and resolution preserve `UrlOK` -/

theorem dropWhile_head_false (p : Char → Bool) :
    ∀ (l : List Char) c t, l.dropWhile p = c :: t → p c = false := by
  intro l
  induction l with
  | nil => intro c t h; simp [List.dropWhile] at h
  | cons x xs ih =>
    intro c t h
    by_cases hx : p x = true
    · rw [List.dropWhile_cons_of_pos hx] at h
      exact ih c t h
    · rw [List.dropWhile_cons_of_neg hx] at h
      obtain ⟨hc, _⟩ := List.cons.injEq .. ▸ h
      subst hc
      simpa using hx

theorem takeWhile_all (p : Char → Bool) (l : List Char) :
    (l.takeWhile p).all p = true := by
  rw [List.all_eq_true]
  intro x hx
  exact List.mem_takeWhile_imp hx

theorem takeWhile_head? (p : Char → Bool) (l : List Char) (c : Char)
    (h : (l.takeWhile p).head? = some c) : l.head? = some c := by
  match l, h with
  | x :: xs, h =>
    by_cases hx : p x = true
    · rw [List.takeWhile_cons_of_pos hx] at h
      simpa using h
    · rw [List.takeWhile_cons_of_neg hx] at h
      exact absurd h (by simp)

theorem dropWhile_head?_false (p : Char → Bool) (l : List Char) (c : Char)
    (h : (l.dropWhile p).head? = some c) : p c = false := by
  cases hdw : l.dropWhile p with
  | nil => rw [hdw] at h; simp at h
  | cons x xs =>
    rw [hdw] at h
    have hx : x = c := by simpa using h
    subst hx
    exact dropWhile_head_false p l x xs hdw

theorem parseAuthoritySpecial_UrlOK (sch : String) (l : List Char) (u : Url)
    (hok : schemeOK sch = true) (_hsp : specialScheme sch = true)
    (h : parseAuthoritySpecial sch l = some u) : UrlOK u := by
  unfold parseAuthoritySpecial at h
  split at h
  · simp at h
  · next hne =>
    injection h with hu
    subst hu
    have hhost : ((l.dropWhile isSlashy).takeWhile notDelim) ≠ [] := by
      simpa [List.isEmpty_iff] using hne
    refine ⟨hok, ?_, ?_, ?_⟩
    · intro _
      exact takeWhile_all notDelim (l.dropWhile isSlashy)
    · intro _ _
      refine ⟨hhost, ?_⟩
      intro c hc
      exact dropWhile_head?_false isSlashy l c (takeWhile_head? notDelim _ c hc)
    · intro hsep
      simp at hsep

theorem parseAuthorityLoose_UrlOK (sch : String) (l : List Char)
    (hok : schemeOK sch = true) (hsp : specialScheme sch = false) :
    UrlOK (parseAuthorityLoose sch l) := by
  refine ⟨hok, ?_, ?_, ?_⟩
  · intro _
    exact takeWhile_all notDelim l
  · intro _ hsp2
    rw [parseAuthorityLoose] at hsp2
    simp only at hsp2
    rw [hsp2] at hsp
    simp at hsp
  · intro hsep
    rw [parseAuthorityLoose] at hsep
    simp at hsep

theorem urlParse_UrlOK (s : String) (u : Url) (h : urlParse s = some u) : UrlOK u := by
  unfold urlParse at h
  cases hsp : splitScheme s.data with
  | none => rw [hsp] at h; simp at h
  | some p =>
    obtain ⟨sch, rest⟩ := p
    rw [hsp] at h
    simp only at h
    obtain ⟨_, hok⟩ := splitScheme_eq s.data sch rest hsp
    by_cases hspec : specialScheme (String.mk sch) = true
    · rw [if_pos hspec] at h
      exact parseAuthoritySpecial_UrlOK (String.mk sch) rest u hok hspec h
    · rw [if_neg hspec] at h
      have hspec' : specialScheme (String.mk sch) = false := by
        cases hx : specialScheme (String.mk sch) with
        | false => rfl
        | true => exact absurd hx hspec
      split at h
      · injection h with hu
        subst hu
        exact parseAuthorityLoose_UrlOK (String.mk sch) _ hok hspec'
      · injection h with hu
        subst hu
        exact ⟨hok, by intro hs; simp at hs, by intro hs; simp at hs, fun _ => hspec'⟩

theorem urlResolve_UrlOK (i b : String) (u : Url) (h : urlResolve i b = some u) : UrlOK u := by
  unfold urlResolve at h
  cases hpi : urlParse i with
  | some v =>
    rw [hpi] at h
    simp only [Option.some.injEq] at h
    subst h
    exact urlParse_UrlOK i _ hpi
  | none =>
    rw [hpi] at h
    simp only at h
    cases hpb : urlParse b with
    | none => rw [hpb] at h; simp at h
    | some ub =>
      rw [hpb] at h
      simp only at h
      obtain hub := urlParse_UrlOK b ub hpb
      by_cases hsep : ub.sep = false
      · rw [if_pos hsep] at h; simp at h
      · rw [if_neg hsep] at h
        have hsep' : ub.sep = true := by
          cases hx : ub.sep with
          | true => rfl
          | false => exact absurd hx hsep
        split at h
        · by_cases hspec : specialScheme ub.scheme = true
          · rw [if_pos hspec] at h
            exact parseAuthoritySpecial_UrlOK ub.scheme _ u hub.1 hspec h
          · rw [if_neg hspec] at h
            injection h with hu
            subst hu
            exact parseAuthorityLoose_UrlOK ub.scheme _ hub.1
              (by cases hx : specialScheme ub.scheme with
                  | false => rfl
                  | true => exact absurd hx hspec)
        · injection h with hu
          subst hu
          exact ⟨hub.1, fun _ => hub.2.1 hsep', fun _ => hub.2.2.1 hsep', by intro hs; simp at hs⟩
        · injection h with hu
          subst hu
          exact hub
        · injection h with hu
          subst hu
          exact ⟨hub.1, fun _ => hub.2.1 hsep', fun _ => hub.2.2.1 hsep', by intro hs; simp at hs⟩

/-! ### Serializations of well-formed URLs re-parse -/

theorem urlParse_href_isSome (u : Url) (h : UrlOK u) : (urlParse (href u)).isSome = true := by
  obtain ⟨h1, h2, h3, h4⟩ := h
  cases hsep : u.sep with
  | true =>
    have hdata : (href u).data
        = u.scheme.data ++ ':' :: ('/' :: '/' :: (u.host.data ++ u.pathQuery.data)) := by
      simp [href, hsep, String.data_append, List.append_assoc]
    have hsplit : splitScheme ((href u).data)
        = some (u.scheme.data, '/' :: '/' :: (u.host.data ++ u.pathQuery.data)) := by
      rw [hdata]
      exact splitScheme_append _ _ h1
    unfold urlParse
    rw [hsplit]
    simp only
    rw [show String.mk u.scheme.data = u.scheme from rfl]
    by_cases hspec : specialScheme u.scheme = true
    · rw [if_pos hspec]
      obtain ⟨hne, hheadslash⟩ := h3 hsep hspec
      obtain ⟨hc, ht, hhost⟩ := List.exists_cons_of_ne_nil hne
      have hslash : isSlashy hc = false := hheadslash hc (by rw [hhost]; rfl)
      have hdelim : notDelim hc = true := by
        have hall := h2 hsep
        rw [List.all_eq_true] at hall
        exact hall hc (by rw [hhost]; exact List.mem_cons_self _ _)
      unfold parseAuthoritySpecial
      rw [hhost]
      have e1 : List.dropWhile isSlashy ('/' :: '/' :: ((hc :: ht) ++ u.pathQuery.data))
          = hc :: (ht ++ u.pathQuery.data) := by
        rw [List.dropWhile_cons_of_pos (by decide), List.dropWhile_cons_of_pos (by decide),
          List.cons_append, List.dropWhile_cons_of_neg (by simp [hslash])]
      rw [e1, List.takeWhile_cons_of_pos hdelim, if_neg (by simp)]
      rfl
    · rw [if_neg hspec]
      rfl
  | false =>
    have hdata : (href u).data = u.scheme.data ++ ':' :: u.pathQuery.data := by
      simp [href, hsep, String.data_append]
    have hsplit : splitScheme ((href u).data) = some (u.scheme.data, u.pathQuery.data) := by
      rw [hdata]
      exact splitScheme_append _ _ h1
    unfold urlParse
    rw [hsplit]
    simp only
    rw [show String.mk u.scheme.data = u.scheme from rfl]
    rw [if_neg (by simp [h4 hsep])]
    split
    · rfl
    · rfl

/-! ### Claims C5 and C2 -/

/-- C5 (amended): the URL Validator returns true iff the string parses as an
absolute URL with a scheme; a host is required only for special schemes such
as http/https (`"a:b"` is accepted with an empty host), and it returns false
for `"not a url"` and the empty string.  The validator is a pure function of
its argument with no effects (it is modelled as one). -/
theorem C5_url_validator_amended :
    (∀ s : String, isValidUrl s = true ↔ ∃ u, urlParse s = some u)
    ∧ (∀ (s : String) (u : Url), urlParse s = some u →
        schemeOK u.scheme = true ∧ (specialScheme u.scheme = true → u.host ≠ ""))
    ∧ isValidUrl "a:b" = true
    ∧ isValidUrl "not a url" = false
    ∧ isValidUrl "" = false
    ∧ isValidUrl "https://example.com/a" = true := by
  refine ⟨?_, ?_, by decide, by decide, by decide, by decide⟩
  · intro s
    simp [isValidUrl, Option.isSome_iff_exists]
  · intro s u h
    obtain ⟨h1, h2, h3, h4⟩ := urlParse_UrlOK s u h
    refine ⟨h1, ?_⟩
    intro hspec
    have hsep : u.sep = true := by
      cases hx : u.sep with
      | true => rfl
      | false => exact absurd (h4 hx) (by simp [hspec])
    obtain ⟨hne, _⟩ := h3 hsep hspec
    intro hh
    exact hne (congrArg String.data hh)

/-- C5 witness: the structural conjunct applied to a concrete accepted URL. -/
theorem C5_url_validator_witness :
    schemeOK "https" = true ∧ (specialScheme "https" = true → ("example.com" : String) ≠ "") :=
  C5_url_validator_amended.2.1 "https://example.com/a"
    { scheme := "https", sep := true, host := "example.com", pathQuery := "/a" } rfl

/-- C5 counterexample: `"a:b"` is accepted by the validator although it has
no host, refuting the claimed "scheme and host" biconditional. -/
theorem C5_url_validator_counterexample :
    isValidUrl "a:b" = true ∧ (urlParse "a:b").map Url.host = some ""
      ∧ (urlParse "a:b").map Url.sep = some false := by
  exact ⟨by decide, by decide, by decide⟩

/-- C2 (amended): every string in a cleaned images list starts with `http`;
each such string either parses as an absolute URL (it is the serialization
produced by the resolution path) or is `https:` + candidate for a
protocol-relative candidate, which the code emits without any validation.
The scheme condition is only this prefix check, so schemes like `httpx` also
pass. -/
theorem C2_images_http_amended : ∀ (cands : List String) (base url : String),
    url ∈ cleanImages cands base →
    jsStartsWith url "http" = true
    ∧ ((∃ u, urlParse url = some u)
        ∨ ∃ c ∈ cands, jsStartsWith c "//" = true ∧ url = "https:" ++ c) := by
  intro cands base url hmem
  obtain ⟨hfm, hk⟩ := List.mem_filter.mp hmem
  refine ⟨keepUrl_starts url hk, ?_⟩
  obtain ⟨c, hc, hnorm⟩ := List.mem_filterMap.mp hfm
  unfold normalizeCandidate at hnorm
  by_cases hpr : jsStartsWith c "//" = true
  · rw [if_pos hpr] at hnorm
    injection hnorm with he
    exact Or.inr ⟨c, hc, hpr, he.symm⟩
  · rw [if_neg hpr] at hnorm
    rw [Option.map_eq_some'] at hnorm
    obtain ⟨u, hres, hhref⟩ := hnorm
    subst hhref
    exact Or.inl (Option.isSome_iff_exists.mp (urlParse_href_isSome u (urlResolve_UrlOK _ _ u hres)))

/-- C2 witness: the amended theorem applied to the concrete output of a
protocol-relative candidate. -/
theorem C2_images_http_witness :
    jsStartsWith "https://img.example.com/a.jpg" "http" = true
    ∧ ((∃ u, urlParse "https://img.example.com/a.jpg" = some u)
        ∨ ∃ c ∈ ["//img.example.com/a.jpg"], jsStartsWith c "//" = true
            ∧ "https://img.example.com/a.jpg" = "https:" ++ c) :=
  C2_images_http_amended ["//img.example.com/a.jpg"] "https://site.com/x"
    "https://img.example.com/a.jpg" (by decide)

/-- C2 counterexample: the cleaned images list can contain a URL whose
scheme is `httpx` (not http/https) and a string (`https://`, produced from
the protocol-relative candidate `//`) that does not parse as an absolute
URL at all. -/
theorem C2_images_scheme_counterexample :
    cleanImages ["httpx://img.example.com/a.jpg", "//"] "https://site.com/x"
      = ["httpx://img.example.com/a.jpg", "https://"]
    ∧ (urlParse "httpx://img.example.com/a.jpg").map Url.scheme = some "httpx"
    ∧ urlParse "https://" = none := by
  exact ⟨by decide, by decide, by decide⟩

/-! ### Relay-loop characterization lemmas -/

theorem accepted_resp (ok : Bool) (body : String) (h : accepted (.resp ok body) = true) :
    ok = true ∧ body ≠ "" ∧ 500 < body.length :=
  of_decide_eq_true h

theorem accepted_resp_true (body : String) (h1 : body ≠ "") (h2 : 500 < body.length) :
    accepted (RelayOutcome.resp true body) = true :=
  decide_eq_true ⟨rfl, h1, h2⟩

theorem not_accepted_resp_true (body : String) (h : ¬(body ≠ "" ∧ 500 < body.length)) :
    ¬(accepted (RelayOutcome.resp true body) = true) :=
  fun hx => h (of_decide_eq_true hx).2

theorem firstAcceptedBody_ne_empty : ∀ (outs : List RelayOutcome) (b : String),
    firstAcceptedBody outs = some b → b ≠ "" := by
  intro outs
  induction outs with
  | nil => intro b h; simp [firstAcceptedBody] at h
  | cons o rest ih =>
    intro b h
    unfold firstAcceptedBody at h
    by_cases ha : accepted o = true
    · rw [if_pos ha] at h
      injection h with hb
      subst hb
      cases o with
      | err m => simp [accepted] at ha
      | resp ok body => exact (accepted_resp ok body ha).2.1
    · rw [if_neg ha] at h
      exact ih b h

theorem relayLoop_fst : ∀ (outs : List RelayOutcome) (h : String) (e : Option String),
    (relayLoop outs h e).1 = (match firstAcceptedBody outs with
      | some b => b
      | none => lastOkBodyFrom h outs) := by
  intro outs
  induction outs with
  | nil => intro h e; rfl
  | cons o rest ih =>
    intro h e
    cases o with
    | err m =>
      show (relayLoop rest h (some m)).1 = _
      rw [ih]
      rfl
    | resp ok body =>
      cases ok with
      | false =>
        show (relayLoop rest h e).1 = _
        rw [ih]
        rfl
      | true =>
        by_cases hacc : body ≠ "" ∧ 500 < body.length
        · have h1 : relayLoop (RelayOutcome.resp true body :: rest) h e = (body, e) := by
            show (if body ≠ "" ∧ 500 < body.length then (body, e) else relayLoop rest body e) = _
            rw [if_pos hacc]
          have h2 : firstAcceptedBody (RelayOutcome.resp true body :: rest) = some body := by
            show (if accepted (RelayOutcome.resp true body) = true
              then some (bodyOf (RelayOutcome.resp true body))
              else firstAcceptedBody rest) = some body
            rw [if_pos (accepted_resp_true body hacc.1 hacc.2)]
            rfl
          rw [h1, h2]
        · have h1 : relayLoop (RelayOutcome.resp true body :: rest) h e
              = relayLoop rest body e := by
            show (if body ≠ "" ∧ 500 < body.length then (body, e) else relayLoop rest body e) = _
            rw [if_neg hacc]
          have h2 : firstAcceptedBody (RelayOutcome.resp true body :: rest)
              = firstAcceptedBody rest := by
            show (if accepted (RelayOutcome.resp true body) = true
              then some (bodyOf (RelayOutcome.resp true body))
              else firstAcceptedBody rest) = firstAcceptedBody rest
            rw [if_neg (not_accepted_resp_true body hacc)]
          rw [h1, ih, h2]
          rfl

theorem relayLoop_of_none : ∀ (outs : List RelayOutcome),
    firstAcceptedBody outs = none → ∀ (h : String) (e : Option String),
    relayLoop outs h e = (lastOkBodyFrom h outs, lastErrFrom e outs) := by
  intro outs
  induction outs with
  | nil => intro _ h e; rfl
  | cons o rest ih =>
    intro hn h e
    unfold firstAcceptedBody at hn
    by_cases ha : accepted o = true
    · rw [if_pos ha] at hn; simp at hn
    · rw [if_neg ha] at hn
      cases o with
      | err m =>
        show relayLoop rest h (some m) = _
        rw [ih hn]
        rfl
      | resp ok body =>
        cases ok with
        | false =>
          show relayLoop rest h e = _
          rw [ih hn]
          rfl
        | true =>
          have hacc : ¬(body ≠ "" ∧ 500 < body.length) := by
            intro hx
            exact ha (decide_eq_true ⟨rfl, hx.1, hx.2⟩)
          show (if body ≠ "" ∧ 500 < body.length then (body, e) else relayLoop rest body e) = _
          rw [if_neg hacc, ih hn]
          rfl

theorem relayLoop_fst_eq_finalHtml (outs : List RelayOutcome) :
    (relayLoop outs "" none).1 = finalHtml outs := by
  rw [relayLoop_fst]
  rfl

theorem scrapeViaProxies_ok_eq (cands : String → List String) (dom : String → DomExtract)
    (outs : List RelayOutcome) (url : String) (r : ScrapedData)
    (h : scrapeViaProxies cands dom outs url = Except.ok r) :
    r = buildResult cands dom url ((relayLoop outs "" none).1) := by
  unfold scrapeViaProxies at h
  split at h
  · simp at h
  · injection h with h'
    exact h'.symm

theorem scrapeUrl_none_eq (cands : String → List String) (dom : String → DomExtract)
    (outs : List RelayOutcome) (url : String) :
    scrapeUrl cands dom none outs url = (match scrapeViaProxies cands dom outs url with
      | .ok r => r
      | .error m =>
        { url := url, images := [], text := "", title := "Error",
          price := none, error := some m }) := rfl

/-! ### Claim C1 -/

/-- C1 (amended): the relay chain accepts the first HTTP-successful response
whose body exceeds 500 characters and then builds the result from that body.
When no response is accepted, the operation throws the AcquisitionFailure —
whose message carries the last caught fetch error, defaulting to `Blocked` —
only when the retained body is empty; an HTTP-successful response with a
non-empty body of at most 500 characters is retained (last such body wins)
and is processed as content instead of failing. -/
theorem C1_relay_chain_amended : ∀ (cands : String → List String) (dom : String → DomExtract)
    (outs : List RelayOutcome) (url : String),
    (∀ b, firstAcceptedBody outs = some b →
      scrapeViaProxies cands dom outs url = Except.ok (buildResult cands dom url b))
    ∧ (firstAcceptedBody outs = none →
      scrapeViaProxies cands dom outs url =
        if lastOkBody outs = "" then Except.error (failMsg (lastErr outs))
        else Except.ok (buildResult cands dom url (lastOkBody outs))) := by
  intro cands dom outs url
  constructor
  · intro b hb
    have hfst : (relayLoop outs "" none).1 = b := by
      rw [relayLoop_fst, hb]
    have hne : b ≠ "" := firstAcceptedBody_ne_empty outs b hb
    unfold scrapeViaProxies
    rw [hfst, if_neg hne]
  · intro hnone
    have h := relayLoop_of_none outs hnone "" none
    unfold scrapeViaProxies
    rw [h]
    rfl

/-- C1 witness: a 501-character accepted body produces the built result. -/
theorem C1_relay_chain_witness :
    scrapeViaProxies noCands noDom outsAccept "https://t.example/"
      = Except.ok (buildResult noCands noDom "https://t.example/" big501) :=
  (C1_relay_chain_amended noCands noDom outsAccept "https://t.example/").1 big501 (by rfl)

/-- C1 counterexample: with one HTTP-successful 9-character body and one
thrown attempt, no outcome satisfies the acceptance criterion, yet the
operation returns content built from the short body instead of failing, so
the claim's "fails when no accepted body" is false of the code. -/
theorem C1_relay_chain_counterexample :
    outsShort.all (fun o => !(accepted o)) = true
    ∧ scrapeViaProxies noCands noDom outsShort "https://t.example/"
      = Except.ok (buildResult noCands noDom "https://t.example/" "shortbody") := by
  exact ⟨by decide, by rfl⟩

/-! ### Claim C3 -/

theorem extractText_le (dom : String → DomExtract) (html : String) :
    (extractTextFromHtml dom html).text.length ≤ 10000 := by
  show (match (dom html).rawBody with
    | none => ""
    | some b => truncateChars 10000 (jsTrim (collapseWs b))).length ≤ 10000
  cases (dom html).rawBody with
  | none => simp
  | some b =>
    show (truncateChars 10000 (jsTrim (collapseWs b))).length ≤ 10000
    show ((jsTrim (collapseWs b)).data.take 10000).length ≤ 10000
    rw [List.length_take]
    exact min_le_left _ _

/-- C3 (amended): a result produced via the relay chain always has body text
of at most 10000 characters (the extractor truncates), but a result produced
via the local extraction service carries the service's `text` field
unchanged (defaulted to the empty string when absent or empty) and is not
truncated, so it may exceed 10000 characters. -/
theorem C3_bodyText_amended : ∀ (cands : String → List String) (dom : String → DomExtract)
    (outs : List RelayOutcome) (url : String),
    (scrapeUrl cands dom none outs url).text.length ≤ 10000
    ∧ ∀ d : LocalData, (scrapeUrl cands dom (some d) outs url).text = jsOr d.text "" := by
  intro cands dom outs url
  constructor
  · cases hE : scrapeViaProxies cands dom outs url with
    | error m =>
      have hsu : scrapeUrl cands dom none outs url
          = { url := url, images := [], text := "", title := "Error",
              price := none, error := some m } := by
        rw [scrapeUrl_none_eq, hE]
      rw [hsu]
      simp
    | ok r =>
      have hsu : scrapeUrl cands dom none outs url = r := by
        rw [scrapeUrl_none_eq, hE]
      rw [hsu, scrapeViaProxies_ok_eq cands dom outs url r hE]
      exact extractText_le dom _
  · intro d
    rfl

/-- C3 counterexample: a local-service payload with a 10001-character text
field flows through `scrapeUrl` untruncated. -/
theorem C3_bodyText_counterexample :
    10000 < (scrapeUrl noCands noDom
      (some { images := [], title := none, text := some longText, price := none })
      [] "https://t.example/").text.length := by
  have h1 : (scrapeUrl noCands noDom
      (some { images := [], title := none, text := some longText, price := none })
      [] "https://t.example/").text = jsOr (some longText) "" := rfl
  have hne : longText ≠ "" := by
    intro h
    have h1 : (10001 : Nat) = 0 := by
      calc (10001 : Nat) = longText.length := by
            show 10001 = (List.replicate 10001 'x').length
            rw [List.length_replicate]
        _ = ("" : String).length := by rw [h]
        _ = 0 := rfl
    norm_num at h1
  have h2 : jsOr (some longText) "" = longText := by
    show (if longText = "" then "" else longText) = longText
    rw [if_neg hne]
  rw [h1, h2]
  show 10000 < (List.replicate 10001 'x').length
  rw [List.length_replicate]
  norm_num

/-! ### Claim C4 -/

/-- C4 (confirmed): whenever a produced listing result carries an error
message, its images list is empty and its body text is the empty string;
acquisition failure is surfaced as this error-carrying result, and
`scrapeUrl` is total — it never propagates the thrown failure (in the
model it returns `ScrapedData`, not `Except`). -/
theorem C4_error_empty_content : ∀ (cands : String → List String) (dom : String → DomExtract)
    (loc : Option LocalData) (outs : List RelayOutcome) (url m : String),
    (scrapeUrl cands dom loc outs url).error = some m →
    (scrapeUrl cands dom loc outs url).images = []
      ∧ (scrapeUrl cands dom loc outs url).text = "" := by
  intro cands dom loc outs url m herr
  cases loc with
  | some d =>
    exfalso
    have hnone : (scrapeUrl cands dom (some d) outs url).error = none := rfl
    rw [hnone] at herr
    simp at herr
  | none =>
    cases hE : scrapeViaProxies cands dom outs url with
    | ok r =>
      exfalso
      have hsu : scrapeUrl cands dom none outs url = r := by
        rw [scrapeUrl_none_eq, hE]
      rw [hsu, scrapeViaProxies_ok_eq cands dom outs url r hE] at herr
      simp [buildResult] at herr
    | error m' =>
      have hsu : scrapeUrl cands dom none outs url
          = { url := url, images := [], text := "", title := "Error",
              price := none, error := some m' } := by
        rw [scrapeUrl_none_eq, hE]
      rw [hsu]
      exact ⟨rfl, rfl⟩

/-- C4 witness: an exhausted (empty) relay chain yields an error-carrying
result with empty content. -/
theorem C4_error_empty_content_witness :
    (scrapeUrl noCands noDom none [] "https://t.example/").images = []
    ∧ (scrapeUrl noCands noDom none [] "https://t.example/").text = "" :=
  C4_error_empty_content noCands noDom none [] "https://t.example/" (failMsg none) rfl

/-! ### Claim C6 -/

theorem insertionDedupAux_sublist : ∀ (l seen : List String),
    List.Sublist (insertionDedupAux l seen) l := by
  intro l
  induction l with
  | nil => intro seen; simp [insertionDedupAux]
  | cons x xs ih =>
    intro seen
    unfold insertionDedupAux
    by_cases hx : x ∈ seen
    · rw [if_pos hx]
      exact (ih seen).cons x
    · rw [if_neg hx]
      exact (ih (x :: seen)).cons₂ x

theorem insertionDedupAux_not_mem_seen : ∀ (l seen : List String) (x : String),
    x ∈ insertionDedupAux l seen → x ∉ seen := by
  intro l
  induction l with
  | nil => intro seen x hx; simp [insertionDedupAux] at hx
  | cons c xs ih =>
    intro seen x hx
    unfold insertionDedupAux at hx
    by_cases hc : c ∈ seen
    · rw [if_pos hc] at hx
      exact ih seen x hx
    · rw [if_neg hc] at hx
      rcases List.mem_cons.mp hx with h | h
      · subst h; exact hc
      · intro hs
        exact ih (c :: seen) x h (List.mem_cons_of_mem c hs)

theorem insertionDedupAux_nodup : ∀ (l seen : List String),
    (insertionDedupAux l seen).Nodup := by
  intro l
  induction l with
  | nil => intro seen; simp [insertionDedupAux]
  | cons c xs ih =>
    intro seen
    unfold insertionDedupAux
    by_cases hc : c ∈ seen
    · rw [if_pos hc]
      exact ih seen
    · rw [if_neg hc]
      rw [List.nodup_cons]
      refine ⟨?_, ih (c :: seen)⟩
      intro hmem
      exact insertionDedupAux_not_mem_seen xs (c :: seen) c hmem (List.mem_cons_self c seen)

theorem insertionDedupAux_mem : ∀ (l seen : List String) (x : String),
    x ∈ l → x ∈ seen ∨ x ∈ insertionDedupAux l seen := by
  intro l
  induction l with
  | nil => intro seen x hx; simp at hx
  | cons c xs ih =>
    intro seen x hx
    unfold insertionDedupAux
    by_cases hc : c ∈ seen
    · rw [if_pos hc]
      rcases List.mem_cons.mp hx with h | h
      · subst h; exact Or.inl hc
      · exact ih seen x h
    · rw [if_neg hc]
      rcases List.mem_cons.mp hx with h | h
      · subst h; exact Or.inr (List.mem_cons_self _ _)
      · rcases ih (c :: seen) x h with hs | hs
        · rcases List.mem_cons.mp hs with h2 | h2
          · subst h2; exact Or.inr (List.mem_cons_self _ _)
          · exact Or.inl h2
        · exact Or.inr (List.mem_cons_of_mem c hs)

/-- C6 (amended): the images of a relay-path result are obtained by cleaning
a deduplicated raw-candidate sequence: a duplicate-free, discovery-ordered
(order-preserving sublist) cover of all discovered raw candidates.
Deduplication happens before normalization, so distinct raw candidates that
normalize to the same cleaned URL still produce duplicates in `images`. -/
theorem C6_images_dedup_amended : ∀ (cands : String → List String) (dom : String → DomExtract)
    (outs : List RelayOutcome) (url : String) (r : ScrapedData),
    scrapeViaProxies cands dom outs url = Except.ok r →
    ∃ raws : List String, raws.Nodup ∧ List.Sublist raws (cands (finalHtml outs))
      ∧ (∀ x ∈ cands (finalHtml outs), x ∈ raws)
      ∧ r.images = cleanImages raws url := by
  intro cands dom outs url r hE
  refine ⟨insertionDedup (cands (finalHtml outs)), insertionDedupAux_nodup _ _,
    insertionDedupAux_sublist _ _, ?_, ?_⟩
  · intro x hx
    rcases insertionDedupAux_mem (cands (finalHtml outs)) [] x hx with h | h
    · simp at h
    · exact h
  · rw [scrapeViaProxies_ok_eq cands dom outs url r hE]
    show cleanImages (insertionDedup (cands ((relayLoop outs "" none).1))) url = _
    rw [relayLoop_fst_eq_finalHtml]

/-- C6 witness: the amended theorem at a concrete accepted acquisition whose
discovery environment reports two raw candidates. -/
theorem C6_images_dedup_witness :
    ∃ raws : List String, raws.Nodup ∧ List.Sublist raws (dupCands (finalHtml outsAccept))
      ∧ (∀ x ∈ dupCands (finalHtml outsAccept), x ∈ raws)
      ∧ (buildResult dupCands noDom "https://t.example/" big501).images
          = cleanImages raws "https://t.example/" :=
  C6_images_dedup_amended dupCands noDom outsAccept "https://t.example/"
    (buildResult dupCands noDom "https://t.example/" big501) (by rfl)

/-- C6 counterexample: two distinct raw candidates (one wrapped in quotes)
normalize to the same cleaned URL, and the produced images list contains
that URL twice — the output is not deduplicated, refuting the claim as
stated. -/
theorem C6_images_dedup_counterexample :
    (scrapeViaProxies dupCands noDom outsAccept "https://t.example/").toOption.map
      (fun r => r.images) = some ["https://h/a.jpg", "https://h/a.jpg"]
    ∧ ¬ (["https://h/a.jpg", ("https://h/a.jpg" : String)].Nodup) := by
  exact ⟨by decide, by decide⟩

/-! ### Claim C9 -/

/-- C9 (confirmed): with a credential present, the Summarizer returns the
model's text response, or the fixed placeholder when the response text is
empty or absent; any call failure — and a missing API credential, which
makes client construction throw inside the same `try` — yields the fixed
user-facing failure message.  The function is total (never raises past this
boundary), and the input text does not affect which branch is taken. -/
theorem C9_summarizer_contract :
    (∀ (k t txt : String), summarizePropertyListing (some k) (GenOutcome.success (some t)) txt
        = if t = "" then emptySummaryPlaceholder else t)
    ∧ (∀ (k txt : String), summarizePropertyListing (some k) (GenOutcome.success none) txt
        = emptySummaryPlaceholder)
    ∧ (∀ (k e txt : String), summarizePropertyListing (some k) (GenOutcome.failure e) txt
        = summaryFailureMessage)
    ∧ (∀ (o : GenOutcome) (txt : String), summarizePropertyListing none o txt
        = summaryFailureMessage) :=
  ⟨fun _ _ _ => rfl, fun _ _ => rfl, fun _ _ _ => rfl, fun _ _ => rfl⟩

/-! ### Claim C10 -/

theorem fetchEntry_eq (fetch : String → FetchOutcome) (p : Nat × String) (fn blob : String)
    (h : (match fetch p.2 with
          | FetchOutcome.ok b => some (imageFileName p.1 p.2, b)
          | FetchOutcome.fail => none) = some (fn, blob)) :
    fetch p.2 = FetchOutcome.ok blob ∧ fn = imageFileName p.1 p.2 := by
  cases hfu : fetch p.2 with
  | ok b2 =>
    rw [hfu] at h
    injection h with h'
    obtain ⟨h1, h2⟩ := Prod.mk.injEq .. ▸ h'
    exact ⟨congrArg FetchOutcome.ok h2, h1.symm⟩
  | fail =>
    rw [hfu] at h
    simp at h

/-- C10 (confirmed): the Archive Builder does nothing for an empty image
list; otherwise it assembles the archive (and the save action runs)
regardless of fetch failures, and its entries are exactly the successful
fetches, each stored under `image_(i+1).(ext)` where `i` is the image's
0-based position in the listing's original images sequence — so failed
fetches leave gaps in the numbering rather than renumbering survivors. -/
theorem C10_archive_numbering : ∀ (fetch : String → FetchOutcome) (d : ScrapedData),
    (d.images = [] → handleDownloadImages fetch d = none)
    ∧ (d.images ≠ [] →
        handleDownloadImages fetch d = some (fetchImages fetch d.images, zipFileName d.title)
        ∧ (∀ (i : Nat) (u blob : String), d.images[i]? = some u →
            fetch u = FetchOutcome.ok blob →
            (imageFileName i u, blob) ∈ fetchImages fetch d.images)
        ∧ (∀ (fn blob : String), (fn, blob) ∈ fetchImages fetch d.images →
            ∃ (i : Nat) (u : String), d.images[i]? = some u
              ∧ fetch u = FetchOutcome.ok blob ∧ fn = imageFileName i u)) := by
  intro fetch d
  constructor
  · intro h
    unfold handleDownloadImages
    rw [h]
    rfl
  · intro hne
    refine ⟨?_, ?_, ?_⟩
    · unfold handleDownloadImages
      rw [if_neg (by simpa using hne)]
    · intro i u blob hget hfetch
      refine List.mem_filterMap.mpr ⟨(i, u), ?_, ?_⟩
      · exact List.mk_mem_enum_iff_getElem?.mpr hget
      · show (match fetch u with
          | FetchOutcome.ok b => some (imageFileName i u, b)
          | FetchOutcome.fail => none) = some (imageFileName i u, blob)
        rw [hfetch]
    · intro fn blob hmem
      obtain ⟨⟨i, u⟩, hm, hf⟩ := List.mem_filterMap.mp hmem
      obtain ⟨hfu, hfn⟩ := fetchEntry_eq fetch (i, u) fn blob hf
      exact ⟨i, u, List.mk_mem_enum_iff_getElem?.mp hm, hfu, hfn⟩

/-- C10 witness: a two-image listing whose first fetch fails yields an
archive holding exactly one entry named `image_2.png` — the surviving image
keeps its original number and the archive is still produced. -/
theorem C10_archive_numbering_witness :
    handleDownloadImages gapFetch gapListing
      = some (fetchImages gapFetch gapListing.images, zipFileName gapListing.title)
    ∧ (imageFileName 1 "https://h/b.png", "B") ∈ fetchImages gapFetch gapListing.images
    ∧ fetchImages gapFetch gapListing.images = [("image_2.png", "B")] := by
  obtain ⟨heq, hfwd, _⟩ := (C10_archive_numbering gapFetch gapListing).2 (by decide)
  exact ⟨heq, hfwd 1 "https://h/b.png" "B" (by decide) (by decide), by decide⟩

end Scrape
